import Mathlib

/-!
Verification of the `lexis` automaton library (src/automaton.rs).

The deterministic automaton (`State`, `TransitionMatrix`, `Automaton`) is
embedded directly from the source.  The nondeterministic builder's private
helpers (`append`, `add`, `append_final`, `insert_start`, `end_states`) have
empty bodies in the source, so those parts are modelled from the design
document, as noted on each definition.
-/

namespace Lexis

/-- Embeds `State` (src/automaton.rs lines 6-21): a numeric index plus
acceptance and error flags. -/
structure State where
  number : Nat
  is_final : Bool
  is_error : Bool
deriving DecidableEq, Repr

/-- Model of Rust's `HashMap<Symbol, State>`: a partial map from symbols
(strings) to states. -/
def HMap : Type := String → Option State

/-- The empty hash map. -/
def HMap.empty : HMap := fun _ => none

/-- Models `HashMap::insert`: the new binding shadows any previous one. -/
def HMap.insert (m : HMap) (k : String) (v : State) : HMap :=
  fun q => if q = k then some v else m q

/-- Embeds `TransitionMatrix` (src/automaton.rs lines 23-26): a growable
vector of per-state symbol tables plus a start state. -/
structure TransitionMatrix where
  matrix : List HMap
  start_state : State

/-- Embeds `TransitionMatrix::new` (lines 29-34): empty vector, start state
with index 0 and both flags false. -/
def TransitionMatrix.new : TransitionMatrix :=
  { matrix := [], start_state := State.mk 0 false false }

/-- Embeds `TransitionMatrix::transition` (lines 40-49): out-of-range
indices yield `None`; otherwise the per-state table is consulted. -/
def TransitionMatrix.transition (tm : TransitionMatrix) (state : State)
    (symbol : String) : Option State :=
  if tm.matrix.length ≤ state.number then none
  else (tm.matrix.getD state.number HMap.empty) symbol

/-- The `resize` step of `TransitionMatrix::add` (lines 52-54): grow the
vector with empty rows until index `n` is in range; no-op if it already is. -/
def TransitionMatrix.resized (tm : TransitionMatrix) (n : Nat) : List HMap :=
  if tm.matrix.length ≤ n
  then tm.matrix ++ List.replicate (n + 1 - tm.matrix.length) HMap.empty
  else tm.matrix

/-- Embeds `TransitionMatrix::add` (lines 51-59): grow the vector up to the
`from` index if needed, then insert into that row's table (overwriting). -/
def TransitionMatrix.add (tm : TransitionMatrix) (from_state to_state : State)
    (symbol : String) : TransitionMatrix :=
  { tm with
    matrix := (tm.resized from_state.number).set from_state.number
      (((tm.resized from_state.number).getD from_state.number HMap.empty).insert
        symbol to_state) }

/-- Embeds `Automaton` (lines 62-64). -/
structure Automaton where
  transition_matrix : TransitionMatrix

/-- Embeds `Automaton::new` (lines 67-71). -/
def Automaton.new : Automaton :=
  { transition_matrix := TransitionMatrix.new }

/-- Embeds `Automaton::add_transition` (lines 73-80). -/
def Automaton.add_transition (a : Automaton) (from_state to_state : State)
    (symbol : String) : Automaton :=
  { a with transition_matrix := a.transition_matrix.add from_state to_state symbol }

/-- Embeds the private `Automaton::transition` (lines 99-102): look up the
one-character string of the symbol. -/
def Automaton.transitionChar (a : Automaton) (state : State) (symbol : Char) :
    Option State :=
  a.transition_matrix.transition state symbol.toString

/-- The loop body of `Automaton::consume` (lines 82-97): walk the remaining
characters from the current state; a missing transition returns false at
once, and exhausting the input checks the final/error flags. -/
def Automaton.consumeFrom (a : Automaton) (state : State) :
    List Char → Bool
  | [] => state.is_final && !state.is_error
  | c :: rest =>
    match a.transitionChar state c with
    | none => false
    | some next => a.consumeFrom next rest

/-- Embeds `Automaton::consume` (lines 82-97): start the walk at the
matrix's start state. -/
def Automaton.consume (a : Automaton) (sequence : String) : Bool :=
  a.consumeFrom a.transition_matrix.start_state sequence.toList

/-- Restates the spec's description of `consume` verbatim, as a fold: start
at the start state, look up one transition per input symbol in order
(`Option.bind` makes a missing transition absorbing), and accept iff the
state reached after the last character is final and not an error state. -/
def Automaton.consumeSpec (a : Automaton) (sequence : String) : Bool :=
  match sequence.toList.foldl
      (fun acc c => acc.bind (fun st => a.transitionChar st c))
      (some a.transition_matrix.start_state) with
  | none => false
  | some st => st.is_final && !st.is_error

/-- Embeds `tests::create_automaton` (lines 109-119): states 0, 1 non-final
and 2 final, none an error state, with edges 0 --a--> 1 and 1 --b--> 2. -/
def create_automaton : Automaton :=
  ((Automaton.new).add_transition (State.mk 0 false false) (State.mk 1 false false) ("a")).add_transition
    (State.mk 1 false false) (State.mk 2 true false) ("b")

/-- An automaton built by `Automaton::new` followed by an arbitrary sequence
of `add_transition` calls, one per list element. -/
def buildFrom (ops : List (State × State × String)) : Automaton :=
  ops.foldl (fun a op => a.add_transition op.1 op.2.1 op.2.2) Automaton.new

namespace nfa

/-- Embeds the `EPSILON` constant (src/automaton.rs line 143). -/
def EPSILON : String := "ε"

/-- Embeds `nfa::State` (lines 242-256): index, derived display name, and
an acceptance flag. -/
structure State where
  number : Nat
  name : String
  is_final : Bool
deriving DecidableEq, Repr

/-- Embeds `nfa::State::new` (lines 249-255): the name is "s" followed by
the decimal index. -/
def State.new (number : Nat) (isf : Bool) : State :=
  { number := number, name := "s" ++ toString number, is_final := isf }

/-- Embeds `nfa::Transition` (lines 258-275); the Rust references are
modelled by value. -/
structure Transition where
  from_state : State
  to_state : State
  symbol : String

/-- Embeds `nfa::Transition::new` (lines 265-275). -/
def Transition.new (f t : State) (sym : String) : Transition :=
  { from_state := f, to_state := t, symbol := sym }

/-- Embeds `nfa::Transition::to_str` (lines 277-282):
`format!("({}->{},{})", from.name, to.name, symbol)`. -/
def Transition.to_str (tr : Transition) : String :=
  "(" ++ tr.from_state.name ++ "->" ++ tr.to_state.name ++ "," ++ tr.symbol ++ ")"

/-- Embeds `nfa::TransitionMatrix` (lines 289-291): a hash set keyed by the
canonical string rendering of a transition. -/
structure TransitionMatrix where
  matrix : Finset String

/-- Embeds `nfa::TransitionMatrix::new` (lines 294-298). -/
def TransitionMatrix.new : TransitionMatrix := { matrix := ∅ }

/-- Embeds `nfa::TransitionMatrix::is_valid` (lines 300-309): membership of
the rendered string in the set. -/
def TransitionMatrix.is_valid (m : TransitionMatrix) (f t : State)
    (sym : String) : Bool :=
  decide ((Transition.new f t sym).to_str ∈ m.matrix)

/-- Embeds `nfa::TransitionMatrix::add_transition` (lines 311-322): insert
the rendered string into the set. -/
def TransitionMatrix.add_transition (m : TransitionMatrix) (f t : State)
    (sym : String) : TransitionMatrix :=
  { matrix := insert (Transition.new f t sym).to_str m.matrix }

/-- Modelled from the spec: the builder automaton.  The source's
`nfa::Automaton` holds `regex_str`, a start state and a transition matrix,
but its private helpers (`append`, `add`, `append_final`, `insert_start`,
`end_states`) have empty bodies, so the spec's arena representation (§9:
flat vector of states plus flat list of edges, identity by index) is used;
the start state is kept as its index. -/
structure Automaton where
  regex_str : String
  states : List State
  start : Nat
  transitions : List (Nat × Nat × String)

/-- A state copy with the final flag cleared (name recomputed from the
index, as `State::new` would). -/
def unmarkFinal (s : State) : State := State.new s.number false

/-- Renumbering for merges: shift a state's index by an offset. -/
def shiftState (k : Nat) (s : State) : State := State.new (s.number + k) s.is_final

/-- Renumbering for merges: shift both endpoints of an edge by an offset. -/
def shiftEdge (k : Nat) (e : Nat × Nat × String) : Nat × Nat × String :=
  (e.1 + k, e.2.1 + k, e.2.2)

/-- Modelled from the spec: `end_states` (stub at line 239) — the states
flagged final. -/
def Automaton.end_states (a : Automaton) : List State :=
  a.states.filter fun s => s.is_final

/-- Embeds `nfa::Automaton::from_char` (lines 162-175): two states, start
(index 0, non-final) and end (index 1, final), one edge labelled by the
character. -/
def Automaton.from_char (c : String) : Automaton :=
  { regex_str := c
    states := [State.new 0 false, State.new 1 true]
    start := 0
    transitions := [(0, 1, c)] }

/-- Modelled from the spec: `append_final` (stub at line 235) — add one new
final state; every state that was final becomes non-final and gains an
epsilon edge to the new unique final state. -/
def Automaton.append_final (a : Automaton) : Automaton :=
  let idx := a.states.length
  { a with
    states := a.states.map unmarkFinal ++ [State.new idx true]
    transitions := a.transitions ++ a.end_states.map fun s => (s.number, idx, EPSILON) }

/-- Modelled from the spec: `insert_start` (stub at line 237) — add one new
non-final start state with an epsilon edge out to the old start. -/
def Automaton.insert_start (a : Automaton) : Automaton :=
  let idx := a.states.length
  { a with
    states := a.states ++ [State.new idx false]
    transitions := a.transitions ++ [(idx, a.start, EPSILON)]
    start := idx }

/-- Modelled from the spec: `append` (stub at line 231), the concatenation
merge — append `other`'s renumbered states and edges after `self`'s, wire
each of `self`'s old final states (which become non-final) to `other`'s old
start via an epsilon edge. -/
def Automaton.append (a b : Automaton) : Automaton :=
  let k := a.states.length
  { regex_str := a.regex_str ++ b.regex_str
    states := a.states.map unmarkFinal ++ b.states.map (shiftState k)
    start := a.start
    transitions := a.transitions ++ b.transitions.map (shiftEdge k)
      ++ a.end_states.map fun s => (s.number, b.start + k, EPSILON) }

/-- Modelled from the spec: `add` (stub at line 233), the union merge — the
two automata become parallel components sharing no states (disjoint
renumbering, no edge between them). -/
def Automaton.addU (a b : Automaton) : Automaton :=
  let k := a.states.length
  { regex_str := a.regex_str
    states := a.states ++ b.states.map (shiftState k)
    start := a.start
    transitions := a.transitions ++ b.transitions.map (shiftEdge k) }

/-- The body of `concatenate` (lines 177-186) once `other` is built: merge,
restore the single-final and single-start invariants, set the label. -/
def Automaton.concatenate_with (a b : Automaton) : Automaton :=
  let y := ((a.append b).append_final).insert_start
  { y with regex_str := a.regex_str ++ b.regex_str }

/-- Worker for `from_regex` (lines 152-160) over the fragment's character
list: a single character delegates to `from_char`; otherwise peel the first
character and concatenate the automaton of the rest.  The empty fragment is
the source's panic (`split_at(1)` out of bounds), modelled as `none`. -/
def from_regex_list : List Char → Option Automaton
  | [] => none
  | [c] => some (Automaton.from_char c.toString)
  | c :: rest => (from_regex_list rest).map fun b =>
      (Automaton.from_char c.toString).concatenate_with b

/-- Embeds `nfa::Automaton::from_regex` (lines 152-160). -/
def Automaton.from_regex (s : String) : Option Automaton :=
  from_regex_list s.toList

/-- Embeds `nfa::Automaton::concatenate` (lines 177-186): build `other`
from the fragment, then merge and renormalize. -/
def Automaton.concatenate (a : Automaton) (s : String) : Option Automaton :=
  (Automaton.from_regex s).map fun b => a.concatenate_with b

/-- Embeds `nfa::Automaton::union` (lines 188-198): build `other` from the
fragment, merge disjointly, restore the invariants (modelled from the spec:
the new start epsilon-branches to both former starts, the new final
receives epsilon edges from both former finals), set the label. -/
def Automaton.union (a : Automaton) (s : String) : Option Automaton :=
  (Automaton.from_regex s).map fun b =>
    let k := a.states.length
    let y := ((a.addU b).append_final).insert_start
    { y with
      transitions := y.transitions ++ [(y.start, b.start + k, EPSILON)]
      regex_str := a.regex_str ++ "|" ++ s }

/-- Embeds `nfa::Automaton::kleene_closure` (lines 200-217): rebuild the
automaton from its own fragment, add an epsilon edge from the start to each
end state, renormalize, then add the start-to-final bypass again against
the new start and final. -/
def Automaton.kleene_closure (a : Automaton) : Option Automaton :=
  (Automaton.from_regex a.regex_str).map fun n0 =>
    let n1 := { n0 with
      transitions := n0.transitions ++ n0.end_states.map fun (s : State) => (n0.start, s.number, EPSILON) }
    let n2 := (n1.append_final).insert_start
    let n3 := { n2 with
      transitions := n2.transitions ++ n2.end_states.map fun (s : State) => (n2.start, s.number, EPSILON) }
    { n3 with regex_str := a.regex_str ++ "*" }

/-- The number of states flagged final. -/
def Automaton.countFinal (a : Automaton) : Nat :=
  (a.states.filter fun s => s.is_final).length

/-- Modelled from the spec: one round of epsilon expansion — the seed set
together with every state reachable from it by one epsilon edge. -/
def epsStep (a : Automaton) (cur : Finset Nat) : Finset Nat :=
  cur ∪ ((a.transitions.filter fun e =>
      decide (e.1 ∈ cur) && decide (e.2.2 = EPSILON)).map fun e => e.2.1).toFinset

/-- Modelled from the spec: epsilon-closure as a cycle-tolerant fixed-point
iteration; the fuel argument bounds the number of rounds, so the function
is total even on automata with epsilon cycles. -/
def epsClosureFuel (a : Automaton) : Nat → Finset Nat → Finset Nat
  | 0, cur => cur
  | n + 1, cur =>
    let nxt := epsStep a cur
    if nxt = cur then cur else epsClosureFuel a n nxt

/-- Modelled from the spec: `epsilon_closure(states)` — transitive closure
over epsilon edges from a seed set; the state count bounds the rounds. -/
def Automaton.epsilon_closure (a : Automaton) (seed : Finset Nat) : Finset Nat :=
  epsClosureFuel a a.states.length seed

/-- Modelled from the spec: the move set — successors of the current set
under a literal symbol. -/
def Automaton.move (a : Automaton) (cur : Finset Nat) (c : Char) : Finset Nat :=
  ((a.transitions.filter fun e =>
      decide (e.1 ∈ cur) && decide (e.2.2 = c.toString)).map fun e => e.2.1).toFinset

/-- Modelled from the spec: `step(states, symbol)` — move then
epsilon-closure. -/
def Automaton.step (a : Automaton) (cur : Finset Nat) (c : Char) : Finset Nat :=
  a.epsilon_closure (a.move cur c)

/-- Modelled from the spec: `accepts(sequence)` — start from the
epsilon-closure of the start state, fold `step` over the input, accept iff
the resulting set contains a final state. -/
def Automaton.accepts (a : Automaton) (sequence : String) : Bool :=
  let res := sequence.toList.foldl (fun cur c => a.step cur c)
    (a.epsilon_closure {a.start})
  a.states.any fun s => s.is_final && decide (s.number ∈ res)

/-- A two-state automaton whose epsilon edges form a cycle, used to witness
termination of `accepts` on epsilon cycles. -/
def epsCycleAutomaton : Automaton :=
  { regex_str := ""
    states := [State.new 0 false, State.new 1 true]
    start := 0
    transitions := [(0, 1, EPSILON), (1, 0, EPSILON)] }

end nfa

/-! ## Helper lemmas -/

theorem HMap.insert_apply (m : HMap) (k : String) (v : State) (q : String) :
    m.insert k v q = if q = k then some v else m q := rfl

theorem HMap.empty_apply (q : String) : HMap.empty q = none := rfl

theorem TransitionMatrix.length_resized (tm : TransitionMatrix) (n : Nat) :
    (tm.resized n).length = max tm.matrix.length (n + 1) := by
  unfold TransitionMatrix.resized
  by_cases h : tm.matrix.length ≤ n
  · rw [if_pos h, List.length_append, List.length_replicate]
    omega
  · rw [if_neg h]
    omega

theorem TransitionMatrix.getD_resized_lt (tm : TransitionMatrix) (n i : Nat)
    (h : i < tm.matrix.length) :
    (tm.resized n).getD i HMap.empty = tm.matrix.getD i HMap.empty := by
  unfold TransitionMatrix.resized
  by_cases hc : tm.matrix.length ≤ n
  · rw [if_pos hc,
      List.getD_eq_getElem _ _ (by rw [List.length_append, List.length_replicate]; omega),
      List.getElem_append_left h, List.getD_eq_getElem _ _ h]
  · rw [if_neg hc]

theorem TransitionMatrix.getD_resized_ge (tm : TransitionMatrix) (n i : Nat)
    (h : tm.matrix.length ≤ i) :
    (tm.resized n).getD i HMap.empty = HMap.empty := by
  by_cases hlt : i < (tm.resized n).length
  · unfold TransitionMatrix.resized at hlt ⊢
    by_cases hc : tm.matrix.length ≤ n
    · rw [if_pos hc] at hlt ⊢
      rw [List.getD_eq_getElem _ _ hlt, List.getElem_append_right h,
        List.getElem_replicate]
    · rw [if_neg hc] at hlt
      omega
  · rw [List.getD_eq_default _ _ (by omega)]

theorem getD_set_self (l : List HMap) (n : Nat) (v : HMap) (h : n < l.length) :
    (l.set n v).getD n HMap.empty = v := by
  rw [List.getD_eq_getElem _ _ (by rw [List.length_set]; omega),
    List.getElem_set_self]

theorem getD_set_ne (l : List HMap) (m n : Nat) (v : HMap) (h : m ≠ n) :
    (l.set m v).getD n HMap.empty = l.getD n HMap.empty := by
  by_cases hn : n < l.length
  · rw [List.getD_eq_getElem _ _ (by rw [List.length_set]; omega),
      List.getElem_set_ne h, List.getD_eq_getElem _ _ hn]
  · rw [List.getD_eq_default _ _ (by rw [List.length_set]; omega),
      List.getD_eq_default _ _ (by omega)]

/-- Characterization of lookups after `TransitionMatrix::add`: the new
binding answers exactly the written `(from, symbol)` pair, every other
query is unchanged. -/
theorem TransitionMatrix.transition_add (tm : TransitionMatrix) (f t : State)
    (sym : String) (s : State) (y : String) :
    (tm.add f t sym).transition s y =
      if s.number = f.number ∧ y = sym then some t else tm.transition s y := by
  unfold TransitionMatrix.add TransitionMatrix.transition
  dsimp only
  rw [List.length_set]
  by_cases hsn : s.number = f.number
  · have hflt : f.number < (tm.resized f.number).length := by
      rw [TransitionMatrix.length_resized]
      omega
    rw [hsn, if_neg (by omega), getD_set_self _ _ _ hflt, HMap.insert_apply]
    by_cases hy : y = sym
    · rw [if_pos hy, if_pos ⟨rfl, hy⟩]
    · rw [if_neg hy, if_neg (fun hc => hy hc.2)]
      by_cases hn : tm.matrix.length ≤ f.number
      · rw [TransitionMatrix.getD_resized_ge _ _ _ hn, if_pos hn, HMap.empty_apply]
      · rw [TransitionMatrix.getD_resized_lt _ _ _ (by omega), if_neg hn]
  · rw [if_neg (show ¬(s.number = f.number ∧ y = sym) from fun hc => hsn hc.1)]
    by_cases hs : (tm.resized f.number).length ≤ s.number
    · rw [if_pos hs,
        if_pos (show tm.matrix.length ≤ s.number by
          rw [TransitionMatrix.length_resized] at hs; omega)]
    · rw [if_neg hs, getD_set_ne _ _ _ _ (fun he => hsn he.symm)]
      by_cases hsl : tm.matrix.length ≤ s.number
      · rw [TransitionMatrix.getD_resized_ge _ _ _ hsl, if_pos hsl, HMap.empty_apply]
      · rw [TransitionMatrix.getD_resized_lt _ _ _ (by omega), if_neg hsl]

theorem foldl_bind_none (a : Automaton) (l : List Char) :
    l.foldl (fun acc c => acc.bind fun s2 => a.transitionChar s2 c) none = none := by
  induction l with
  | nil => rfl
  | cons c rest ih => exact ih

theorem consumeFrom_foldl (a : Automaton) (l : List Char) (st : State) :
    a.consumeFrom st l =
      (match l.foldl (fun acc c => acc.bind fun s2 => a.transitionChar s2 c)
          (some st) with
        | none => false
        | some s2 => s2.is_final && !s2.is_error) := by
  induction l generalizing st with
  | nil => rfl
  | cons c rest ih =>
    simp only [Automaton.consumeFrom, List.foldl_cons, Option.some_bind]
    cases h : a.transitionChar st c with
    | none => simp only [foldl_bind_none]
    | some nxt => exact ih nxt

theorem start_state_foldl (ops : List (State × State × String)) (a : Automaton) :
    ((ops.foldl (fun a op => a.add_transition op.1 op.2.1 op.2.2) a)).transition_matrix.start_state
      = a.transition_matrix.start_state := by
  induction ops generalizing a with
  | nil => rfl
  | cons op rest ih => exact ih (a.add_transition op.1 op.2.1 op.2.2)

/-! ## Claim theorems -/

/-- C1: `consume` starts at the automaton's start state, looks up one
transition per input character in order (a missing transition rejects at
once, leaving the rest of the input unread), and on full consumption
accepts iff the reached state is final and not an error state.  The first
conjunct equates `consume` with the spec's fold; the second states the
short-circuit on the walk's loop body. -/
theorem consume_matches_spec :
    (∀ (a : Automaton) (s : String), a.consume s = a.consumeSpec s) ∧
    (∀ (a : Automaton) (st : State) (c : Char) (rest : List Char),
      a.transitionChar st c = none → a.consumeFrom st (c :: rest) = false) := by
  constructor
  · intro a s
    exact consumeFrom_foldl a s.toList _
  · intro a st c rest h
    simp only [Automaton.consumeFrom, h]

/-- Witness for C1 at a concrete input: the empty automaton has no
transition on 'a', so the walk rejects "ab" at once. -/
theorem consume_matches_spec_witness :
    Automaton.new.consumeFrom (State.mk 0 false false) (['a', 'b']) = false :=
  consume_matches_spec.2 Automaton.new (State.mk 0 false false) ('a') (['b']) rfl

/-- C4: looking up a state whose index is at or beyond the matrix's
allocated span yields `none` (no transition), not an error. -/
theorem transition_out_of_range (tm : TransitionMatrix) (s : State)
    (sym : String) (h : tm.matrix.length ≤ s.number) :
    tm.transition s sym = none := by
  unfold TransitionMatrix.transition
  rw [if_pos h]

/-- Witness for C4 at a concrete input: the fresh matrix has span 0, so
state 5 is out of range and the lookup answers `none`. -/
theorem transition_out_of_range_witness :
    TransitionMatrix.new.matrix.length ≤ 5 ∧
      TransitionMatrix.new.transition (State.mk 5 false false) ("a") = none :=
  ⟨by decide,
    transition_out_of_range TransitionMatrix.new (State.mk 5 false false) ("a")
      (by decide)⟩

/-- C5: the last write wins — registering a second edge for the same
`(from, symbol)` pair overwrites the first, and the overwrite is accepted
rather than rejected. -/
theorem det_last_write_wins (a : Automaton) (f t1 t2 : State) (sym : String) :
    ((a.add_transition f t1 sym).add_transition f t2 sym).transition_matrix.transition
      f sym = some t2 := by
  simp [Automaton.add_transition, TransitionMatrix.transition_add]

/-- C6: adding an existing exact triple a second time is observationally a
no-op, both for the deterministic matrix (every lookup unchanged) and for
the nondeterministic hash-set matrix (every membership test unchanged). -/
theorem add_idempotent :
    (∀ (tm : TransitionMatrix) (f t : State) (sym : String) (s : State) (y : String),
      ((tm.add f t sym).add f t sym).transition s y = (tm.add f t sym).transition s y) ∧
    (∀ (m : nfa.TransitionMatrix) (f t : nfa.State) (sym : String)
        (f2 t2 : nfa.State) (sym2 : String),
      ((m.add_transition f t sym).add_transition f t sym).is_valid f2 t2 sym2
        = (m.add_transition f t sym).is_valid f2 t2 sym2) := by
  constructor
  · intro tm f t sym s y
    rw [TransitionMatrix.transition_add, TransitionMatrix.transition_add]
    by_cases hc : s.number = f.number ∧ y = sym
    · rw [if_pos hc, if_pos hc]
    · rw [if_neg hc, if_neg hc]
  · intro m f t sym f2 t2 sym2
    simp [nfa.TransitionMatrix.add_transition, nfa.TransitionMatrix.is_valid,
      Finset.insert_idem]

/-- C7: the two-edge automaton 0 --a--> 1, 1 --b--> 2 with state 2 final
accepts exactly "ab" among the five scenario inputs. -/
theorem consume_literal_scenarios :
    create_automaton.consume ("ab") = true ∧
    create_automaton.consume ("abc") = false ∧
    create_automaton.consume ("cab") = false ∧
    create_automaton.consume ("a") = false ∧
    create_automaton.consume ("") = false := by
  decide

theorem countFinal_insert_start (a : nfa.Automaton) :
    (a.insert_start).countFinal = a.countFinal := by
  simp [nfa.Automaton.insert_start, nfa.Automaton.countFinal, List.filter_append,
    nfa.State.new]

theorem countFinal_append_final (a : nfa.Automaton) :
    (a.append_final).countFinal = 1 := by
  unfold nfa.Automaton.append_final nfa.Automaton.countFinal
  dsimp only
  rw [List.filter_append]
  have h1 : (a.states.map nfa.unmarkFinal).filter (fun s => s.is_final) = [] := by
    rw [List.filter_eq_nil_iff]
    intro x hx
    rw [List.mem_map] at hx
    obtain ⟨y, _, hy⟩ := hx
    rw [← hy]
    simp [nfa.unmarkFinal, nfa.State.new]
  rw [h1]
  simp [nfa.State.new]

theorem countFinal_norm (a : nfa.Automaton) :
    ((a.append_final).insert_start).countFinal = 1 := by
  rw [countFinal_insert_start, countFinal_append_final]

theorem countFinal_concatenate_with (a b : nfa.Automaton) :
    (a.concatenate_with b).countFinal = 1 :=
  countFinal_norm (a.append b)

theorem countFinal_from_char (c : String) :
    (nfa.Automaton.from_char c).countFinal = 1 := by
  simp [nfa.Automaton.from_char, nfa.Automaton.countFinal, nfa.State.new]

theorem from_regex_list_single_final (l : List Char) (a : nfa.Automaton)
    (h : nfa.from_regex_list l = some a) : a.countFinal = 1 := by
  cases l with
  | nil => simp [nfa.from_regex_list] at h
  | cons c rest =>
    cases rest with
    | nil =>
      simp only [nfa.from_regex_list, Option.some_inj] at h
      rw [← h]
      exact countFinal_from_char _
    | cons c2 rest2 =>
      simp only [nfa.from_regex_list, Option.map_eq_some'] at h
      obtain ⟨b, _, hab⟩ := h
      rw [← hab]
      exact countFinal_concatenate_with _ _

/-- C10: however an automaton is built from `Automaton::new` by
`add_transition` calls, the start state used by `consume` stays the fixed
state with index 0 and cleared flags, and consuming the empty input
answers false. -/
theorem start_state_fixed (ops : List (State × State × String)) :
    (buildFrom ops).transition_matrix.start_state = State.mk 0 false false ∧
      (buildFrom ops).consume ("") = false := by
  have h : (buildFrom ops).transition_matrix.start_state = State.mk 0 false false :=
    start_state_foldl ops Automaton.new
  refine ⟨h, ?_⟩
  show (buildFrom ops).consumeFrom (buildFrom ops).transition_matrix.start_state [] = false
  rw [h]
  rfl

/-- C2: after every builder operation — the atoms `from_char` and
`from_regex` as well as the combinators `concatenate`, `union` and
`kleene_closure` — exactly one state of the result is flagged final. -/
theorem nfa_single_final :
    (∀ (c : String), (nfa.Automaton.from_char c).countFinal = 1) ∧
    (∀ (s : String) (a : nfa.Automaton),
      nfa.Automaton.from_regex s = some a → a.countFinal = 1) ∧
    (∀ (a : nfa.Automaton) (s : String) (r : nfa.Automaton),
      a.concatenate s = some r → r.countFinal = 1) ∧
    (∀ (a : nfa.Automaton) (s : String) (r : nfa.Automaton),
      a.union s = some r → r.countFinal = 1) ∧
    (∀ (a r : nfa.Automaton), a.kleene_closure = some r → r.countFinal = 1) := by
  refine ⟨countFinal_from_char, ?_, ?_, ?_, ?_⟩
  · intro s a h
    exact from_regex_list_single_final s.toList a h
  · intro a s r h
    simp only [nfa.Automaton.concatenate, Option.map_eq_some'] at h
    obtain ⟨b, _, hab⟩ := h
    rw [← hab]
    exact countFinal_concatenate_with a b
  · intro a s r h
    simp only [nfa.Automaton.union, Option.map_eq_some'] at h
    obtain ⟨b, _, hab⟩ := h
    rw [← hab]
    exact countFinal_norm ((a.addU b))
  · intro a r h
    simp only [nfa.Automaton.kleene_closure, Option.map_eq_some'] at h
    obtain ⟨b, _, hab⟩ := h
    rw [← hab]
    exact countFinal_norm _

/-- Witness for C2 at a concrete input: concatenating the atom for "a"
with the fragment "b" succeeds and the result has exactly one final
state. -/
theorem nfa_single_final_witness :
    ∃ r, (nfa.Automaton.from_char ("a")).concatenate ("b") = some r ∧
      r.countFinal = 1 :=
  ⟨_, rfl, nfa_single_final.2.2.1 (nfa.Automaton.from_char ("a")) ("b") _ rfl⟩

/-- C3: the acceptance queries — `consume` for the deterministic automaton
and `accepts` for the NFA — are total boolean functions; in particular
`accepts` terminates on an automaton whose epsilon edges form a cycle. -/
theorem acceptance_terminates :
    (∀ (a : Automaton) (s : String), a.consume s = true ∨ a.consume s = false) ∧
    (∀ (n : nfa.Automaton) (s : String), n.accepts s = true ∨ n.accepts s = false) ∧
    nfa.epsCycleAutomaton.accepts ("") = true := by
  refine ⟨fun a s => ?_, fun n s => ?_, by decide⟩
  · cases a.consume s
    · exact Or.inr rfl
    · exact Or.inl rfl
  · cases n.accepts s
    · exact Or.inr rfl
    · exact Or.inl rfl

/-- C8: `from_regex` on the empty fragment fails explicitly (the source
panics in `split_at`, modelled as `none`), while every non-empty fragment
yields an automaton. -/
theorem from_regex_empty_fragment :
    nfa.Automaton.from_regex ("") = none ∧
    (∀ (c : Char) (l : List Char), (nfa.from_regex_list (c :: l)).isSome = true) := by
  constructor
  · rfl
  · intro c l
    induction l generalizing c with
    | nil => rfl
    | cons c2 l2 ih =>
      simp only [nfa.from_regex_list, Option.isSome_map']
      have h2 := ih c2
      cases h3 : nfa.from_regex_list (c2 :: l2) with
      | none => rw [h3] at h2; exact absurd h2 (by decide)
      | some b => rfl

/-- C9: a transition renders exactly as "(s{from}->s{to},{symbol})" with
state names "s" plus the index; the rendered string is the hash key of the
transition set, so a just-added edge passes `is_valid` and re-adding a
structurally identical edge leaves the set unchanged. -/
theorem transition_to_str_hash_key :
    (∀ (n1 n2 : Nat) (b1 b2 : Bool) (sym : String),
      (nfa.Transition.new (nfa.State.new n1 b1) (nfa.State.new n2 b2) sym).to_str
        = "(s" ++ toString n1 ++ "->s" ++ toString n2 ++ "," ++ sym ++ ")") ∧
    (∀ (m : nfa.TransitionMatrix) (f t : nfa.State) (sym : String),
      (m.add_transition f t sym).is_valid f t sym = true) ∧
    (∀ (m : nfa.TransitionMatrix) (f t : nfa.State) (sym : String),
      ((m.add_transition f t sym).add_transition f t sym).matrix
        = (m.add_transition f t sym).matrix) := by
  refine ⟨fun n1 n2 b1 b2 sym => ?_, fun m f t sym => ?_, fun m f t sym => ?_⟩
  · simp only [nfa.Transition.new, nfa.Transition.to_str, nfa.State.new,
      String.append_assoc]
    rw [← String.append_assoc ("(") ("s"), ← String.append_assoc ("->") ("s")]
    rfl
  · simp [nfa.TransitionMatrix.add_transition, nfa.TransitionMatrix.is_valid]
  · simp [nfa.TransitionMatrix.add_transition, Finset.insert_idem]

end Lexis
